import Mathlib

/-!
# Verification of the wallet challenge-response authentication core

Shallow embedding of the repository's crypto/auth modules
(`users/crypto_utils.py`, `users/wallet_auth.py`) and proofs of the spec's
claims about them.

Bytes are modelled as `List Nat` (each entry `< 256` where wellformedness
matters).  External cryptographic primitives (SHA-256 and RIPEMD-160 from
`hashlib`/`Crypto.Hash`, secp256k1 public-key recovery and compact
verification from `coincurve`) are not repository code; the embedded
functions take them as explicit function parameters, applied exactly at the
call sites where the Python code invokes the libraries.  A recovered public
key is represented by its compressed byte serialization (the Python code
only ever uses `pk.format(compressed=True)`).
-/

/-- Big-endian interpretation of a byte string as an unsigned integer,
mirroring Python's `int.from_bytes(data, byteorder='big')` in `c32_encode`. -/
def beBytesToNat (l : List Nat) : Nat :=
  l.foldl (fun a b => a * 256 + b) 0

/-- Fixed-width big-endian byte string of a number, mirroring Python's
`num.to_bytes(byte_length, byteorder='big')` in `c32_decode` (the caller
checks the `num < 256 ^ len` overflow condition separately, since the Python
call raises `OverflowError` otherwise). -/
def natToBeBytes : Nat → Nat → List Nat
  | _, 0 => []
  | n, k + 1 => natToBeBytes (n / 256) k ++ [n % 256]

/-- The c32 alphabet, `crypto_utils.C32_ALPHABET`. -/
def C32_ALPHABET : List Char := "0123456789ABCDEFGHJKMNPQRSTVWXYZ".data

/-- Fuel-indexed helper for the base-32 digit loop of `c32_encode`
(`while num > 0: result.append(num % 32); num //= 32`).  The fuel makes the
recursion structural so that the kernel can evaluate it; `c32digitsRev`
instantiates the fuel, and `c32digitsRev_eq` recovers the natural
recurrence of the loop. -/
def c32digitsRevFuel : Nat → Nat → List Nat
  | 0, _ => []
  | fuel + 1, n => if n = 0 then [] else (n % 32) :: c32digitsRevFuel fuel (n / 32)

/-- The base-32 digits of `n`, least significant first, as produced by the
`c32_encode` loop. -/
def c32digitsRev (n : Nat) : List Nat := c32digitsRevFuel n n

/-- Embeds `crypto_utils.c32_encode`: interpret the bytes as one big-endian
value, take its base-32 digits, pad with the zero symbol up to
`len(data) * 8 // 5`, then reverse and map through the alphabet.  (Python
indexes the alphabet by `num % 32`, always in range; `getD` is the total
rendering of that indexing.) -/
def c32_encode (data : List Nat) : String :=
  if data = [] then ""
  else
    let num := beBytesToNat data
    let result := c32digitsRev num
    let expected_length := data.length * 8 / 5
    let padded := result ++ List.replicate (expected_length - result.length) 0
    String.mk (padded.reverse.map (fun i => C32_ALPHABET.getD i ' '))

/-- Embeds `crypto_utils.c32_decode`: fold each character's alphabet index
into a big-endian value and reconstitute `(len * 5 + 7) // 8` bytes.  A
character not in the alphabet makes Python's `.index` raise `ValueError`
(modelled as `none`), and a value too large for the byte length makes
`to_bytes` raise `OverflowError` (also modelled as `none`). -/
def c32_decode (encoded : String) : Option (List Nat) :=
  if encoded = "" then some []
  else
    match encoded.data.mapM (fun c => C32_ALPHABET.findIdx? (fun a => a == c)) with
    | none => none
    | some idxs =>
        let num := idxs.foldl (fun a i => a * 32 + i) 0
        let byte_length := (encoded.data.length * 5 + 7) / 8
        if num < 256 ^ byte_length then some (natToBeBytes num byte_length) else none

/-- UTF-8 encoding of one character, modelling Python's `str.encode('utf-8')`
per code point (standard RFC 3629 byte layout). -/
def charUtf8 (c : Char) : List Nat :=
  let n := c.toNat
  if n < 128 then [n]
  else if n < 2048 then [192 + n / 64, 128 + n % 64]
  else if n < 65536 then [224 + n / 4096, 128 + n / 64 % 64, 128 + n % 64]
  else [240 + n / 262144, 128 + n / 4096 % 64, 128 + n / 64 % 64, 128 + n % 64]

/-- The raw UTF-8 bytes of a string, `message.encode('utf-8')`. -/
def utf8Bytes (s : String) : List Nat := s.data.flatMap charUtf8

/-- Embeds `crypto_utils._hash_stacks_message`: the SHA-256 digest of the raw
UTF-8 bytes of the message, with no extra framing — the code applies the
(externally supplied) hash directly to `message.encode('utf-8')`. -/
def hash_stacks_message (sha256 : List Nat → List Nat) (message : String) :
    List Nat :=
  sha256 (utf8Bytes message)

/-- Hex value of one character, as accepted by Python's `bytes.fromhex`. -/
def hexVal (c : Char) : Option Nat :=
  if '0' ≤ c ∧ c ≤ '9' then some (c.toNat - '0'.toNat)
  else if 'a' ≤ c ∧ c ≤ 'f' then some (c.toNat - 'a'.toNat + 10)
  else if 'A' ≤ c ∧ c ≤ 'F' then some (c.toNat - 'A'.toNat + 10)
  else none

/-- ASCII whitespace, which Python's `bytes.fromhex` skips between byte
pairs. -/
def isPySpace (c : Char) : Bool :=
  c = ' ' ∨ c = '\t' ∨ c = '\n' ∨ c = '\r' ∨ c = '\x0b' ∨ c = '\x0c'

/-- Models Python's `bytes.fromhex`: pairs of hex digits, ASCII whitespace
allowed between pairs (not inside a pair), any other shape raises
`ValueError` (modelled as `none`). -/
def fromhex : List Char → Option (List Nat)
  | [] => some []
  | [c] => if isPySpace c then some [] else none
  | c :: d :: rest =>
      if isPySpace c then fromhex (d :: rest)
      else
        match hexVal c, hexVal d with
        | some hi, some lo => (fromhex rest).map (fun bs => (hi * 16 + lo) :: bs)
        | _, _ => none

/-- The `0x`/`0X` stripping at the top of both signature parsers
(`signature[2:]` after `startswith`). -/
def strip0x : List Char → List Char
  | '0' :: 'x' :: rest => rest
  | '0' :: 'X' :: rest => rest
  | l => l

/-- Models Python's `str.startswith` as used in `verify_stacks_signature`. -/
def strStarts (s pre : String) : Bool :=
  pre.data.isPrefixOf s.data

/-- The dict returned by `_parse_stacks_connect_signature`:
64-byte `r+s` plus an optional recovery id (`None` means try all four). -/
structure SigData where
  signature : List Nat
  recovery_id : Option Nat
deriving DecidableEq

/-- Embeds `crypto_utils._parse_stacks_connect_signature`, branch for branch:
strip an optional `0x` prefix, hex-decode (`None` on failure), then split on
the decoded length: 65 ⇒ last 64 bytes, 64 ⇒ as is, more than 65 ⇒ trailing
64 bytes (`sig_bytes[-64:]`), anything else ⇒ `None`.  Every successful
branch sets `recovery_id = None`. -/
def parseStacksConnectSignature (signature : String) : Option SigData :=
  match fromhex (strip0x signature.data) with
  | none => none
  | some sig_bytes =>
      if sig_bytes.length = 65 then some ⟨sig_bytes.drop 1, none⟩
      else if sig_bytes.length = 64 then some ⟨sig_bytes, none⟩
      else if sig_bytes.length > 65 then
        some ⟨sig_bytes.drop (sig_bytes.length - 64), none⟩
      else none

/-- Embeds `crypto_utils.derive_stacks_address`, step for step, with the two
hash primitives supplied as parameters (the Python code calls
`hashlib.sha256` and `Crypto.Hash.RIPEMD160`). -/
def derive_stacks_address (sha256 ripemd160 : List Nat → List Nat)
    (public_key : List Nat) (testnet : Bool) : String :=
  let sha256_hash := sha256 public_key
  let hash160 := ripemd160 sha256_hash
  let version : Nat := if testnet then 26 else 22
  let versioned_hash := version :: hash160
  let checksum := (sha256 (sha256 versioned_hash)).take 4
  let address := c32_encode (versioned_hash ++ checksum)
  (if testnet then "ST" else "SP") ++ address

/-- Modelled from the spec (section 4.4), for the refinement claim about the
address formula: `hash160 = RIPEMD160(SHA256(pk))`, version byte 26/22,
checksum = first 4 bytes of the double SHA-256 of version∥hash160, address
text = network prefix followed by the c32 encoding of
version∥hash160∥checksum. -/
def deriveAddressSpec (sha256 ripemd160 : List Nat → List Nat)
    (public_key : List Nat) (testnet : Bool) : String :=
  let version : Nat := if testnet then 26 else 22
  let hash160 := ripemd160 (sha256 public_key)
  let checksum := (sha256 (sha256 (version :: hash160))).take 4
  let payload := version :: (hash160 ++ checksum)
  (if testnet then "ST" else "SP") ++ c32_encode payload

/-- The candidate search loop of `verify_stacks_signature`: for each recovery
id in order, attempt recovery; on success derive the mainnet and the testnet
address and keep the key on the first exact match with the claimed wallet
address (the Python loop breaks out of both loops at that point). -/
def firstMatchKey (sha256 ripemd160 : List Nat → List Nat)
    (recover : List Nat → List Nat → Nat → Option (List Nat))
    (wallet_address : String) (sig_bytes message_hash : List Nat)
    (attempts : List Nat) : Option (List Nat) :=
  attempts.findSome? (fun rec_id =>
    match recover sig_bytes message_hash rec_id with
    | none => none
    | some pk =>
        if derive_stacks_address sha256 ripemd160 pk false = wallet_address
            ∨ derive_stacks_address sha256 ripemd160 pk true = wallet_address
        then some pk else none)

/-- Embeds `crypto_utils.verify_stacks_signature`: basic presence checks, the
`SP`/`ST` address-shape check, signature parsing, message hashing, the
recovery/address-match search over recovery ids (the hinted id alone when
present, else 0–3), and finally the independent `verify_compact` check of the
64-byte `(r,s)` against the matched key and the digest.  `recover` models
`PublicKey.from_signature_and_message` on `r+s+rec_id` (exceptions as
`none`), `verify_compact` models `public_key.verify_compact` (an exception
there makes the Python function return `False`, indistinguishable from a
`False` verdict). -/
def verifyStacksSignature (sha256 ripemd160 : List Nat → List Nat)
    (recover : List Nat → List Nat → Nat → Option (List Nat))
    (verify_compact : List Nat → List Nat → List Nat → Bool)
    (wallet_address message signature : String) : Bool :=
  if wallet_address = "" ∨ message = "" ∨ signature = "" then false
  else if strStarts wallet_address "SP" || strStarts wallet_address "ST" then
    match parseStacksConnectSignature signature with
    | none => false
    | some sig_data =>
        let sig_bytes := sig_data.signature
        let message_hash := hash_stacks_message sha256 message
        let recovery_attempts : List Nat :=
          match sig_data.recovery_id with
          | some r => [r]
          | none => [0, 1, 2, 3]
        match firstMatchKey sha256 ripemd160 recover wallet_address sig_bytes
            message_hash recovery_attempts with
        | none => false
        | some public_key => verify_compact public_key sig_bytes message_hash
  else false

/-- One cache entry of the challenge store: the dict
`{'nonce': ..., 'timestamp': ..., 'message': ...}` stored by
`WalletAuthViewSet.nonce` under the key `wallet_nonce_{address}`.  The TTL
is enforced by the external cache backend and is not part of the value. -/
structure CachedNonce where
  nonce : String
  timestamp : Nat
  message : String
deriving DecidableEq

/-- The challenge store: the per-key view of Django's cache that
`wallet_auth.py` uses. -/
abbrev NonceStore := String → Option CachedNonce

/-- `cache.delete(cache_key)`. -/
def cacheDelete (store : NonceStore) (key : String) : NonceStore :=
  fun k => if k = key then none else store k

/-- Python membership test `needle in haystack` on strings: `needle` occurs
as a contiguous substring of `haystack`. -/
def pyInStr (needle haystack : String) : Bool :=
  decide (needle.data <:+: haystack.data)

/-- The challenge message built by `WalletAuthViewSet.nonce`, with the
`uuid4().hex` nonce and the `int(time.time())` timestamp as parameters
(both are environment inputs). -/
def nonceMessage (wallet_address nonce : String) (timestamp : Nat) : String :=
  "Sign this message to authenticate with Deorganized.\n\nWallet: "
    ++ wallet_address ++ "\nNonce: " ++ nonce ++ "\nTimestamp: "
    ++ toString timestamp ++ "\n\nThis request will expire in 5 minutes."

/-- Embeds the state effect of `WalletAuthViewSet.nonce`: build the message
and store `{'nonce', 'timestamp', 'message'}` under
`wallet_nonce_{address}` (overwriting any prior entry); returns the message
and the updated store. -/
def issueEndpoint (store : NonceStore) (wallet_address nonce : String)
    (timestamp : Nat) : String × NonceStore :=
  let message := nonceMessage wallet_address nonce timestamp
  (message,
   fun k =>
     if k = "wallet_nonce_" ++ wallet_address then
       some ⟨nonce, timestamp, message⟩
     else store k)

/-- The distinct responses `WalletAuthViewSet.verify` can produce.  Each
constructor stands for one literal `Response(...)` in the source:
`expiredNonce` = 400 "Invalid or expired nonce...", `messageMismatch` = 400
"Message does not match the issued nonce...", `invalidNonce` = 400 "Invalid
nonce in message", `invalidSignature` = 401 "Invalid signature. Signature
verification failed.", `success` = the 200 payload (user record and JWT pair
come from external collaborators and are not modelled). -/
inductive VerifyResponse where
  | expiredNonce
  | messageMismatch
  | invalidNonce
  | invalidSignature
  | success
deriving DecidableEq

/-- The part of `WalletAuthViewSet.verify` after the initial `cache.get`,
acting on the value that the read produced.  Mirrors the source branch for
branch: missing entry ⇒ 400 expired; message mismatch ⇒ delete + 400;
nonce not a substring of the message ⇒ delete + 400; failed signature
verification ⇒ delete + 401; success ⇒ delete + 200. -/
def verifyAfterRead (sha256 ripemd160 : List Nat → List Nat)
    (recover : List Nat → List Nat → Nat → Option (List Nat))
    (verify_compact : List Nat → List Nat → List Nat → Bool)
    (store : NonceStore) (wallet_address signature message : String)
    (cached : Option CachedNonce) : VerifyResponse × NonceStore :=
  let cache_key := "wallet_nonce_" ++ wallet_address
  match cached with
  | none => (.expiredNonce, store)
  | some cached_data =>
      if cached_data.message ≠ message then
        (.messageMismatch, cacheDelete store cache_key)
      else if pyInStr cached_data.nonce message = false then
        (.invalidNonce, cacheDelete store cache_key)
      else if verifyStacksSignature sha256 ripemd160 recover verify_compact
          wallet_address message signature = false then
        (.invalidSignature, cacheDelete store cache_key)
      else
        (.success, cacheDelete store cache_key)

/-- Embeds `WalletAuthViewSet.verify`: one `cache.get`, then the checks and
the `cache.delete` of `verifyAfterRead`. -/
def verifyEndpoint (sha256 ripemd160 : List Nat → List Nat)
    (recover : List Nat → List Nat → Nat → Option (List Nat))
    (verify_compact : List Nat → List Nat → List Nat → Bool)
    (store : NonceStore) (wallet_address signature message : String) :
    VerifyResponse × NonceStore :=
  verifyAfterRead sha256 ripemd160 recover verify_compact store wallet_address
    signature message (store ("wallet_nonce_" ++ wallet_address))

/-! ### Interleaving model for two concurrent `verify` calls

The source performs exactly two cache operations per call: the `cache.get`
and a `cache.delete`.  A call is modelled as two atomic steps: the read, and
then everything after the read (pure checks + delete + response) as a second
step.  Bundling the pure checks with the delete only *coarsens* the real
interleavings, so any racy behavior exhibited in this model is also possible
for the source code. -/

/-- Progress of one in-flight `verify` call: not yet started, holding the
value its `cache.get` returned, or finished with a response. -/
inductive CallPhase where
  | ready
  | readDone (cached : Option CachedNonce)
  | finished (r : VerifyResponse)
deriving DecidableEq

/-- Shared cache plus the phases of the two concurrent calls. -/
structure TwoCallState where
  store : NonceStore
  p1 : CallPhase
  p2 : CallPhase

/-- One atomic step of a single call. -/
def callStep (sha256 ripemd160 : List Nat → List Nat)
    (recover : List Nat → List Nat → Nat → Option (List Nat))
    (verify_compact : List Nat → List Nat → List Nat → Bool)
    (wallet_address signature message : String)
    (ph : CallPhase) (store : NonceStore) : CallPhase × NonceStore :=
  match ph with
  | .ready => (.readDone (store ("wallet_nonce_" ++ wallet_address)), store)
  | .readDone cached =>
      let rs := verifyAfterRead sha256 ripemd160 recover verify_compact store
        wallet_address signature message cached
      (.finished rs.1, rs.2)
  | .finished r => (.finished r, store)

/-- Scheduler step: run one atomic step of call 1 (`true`) or call 2
(`false`); both calls carry the same address, signature and message. -/
def sysStep (sha256 ripemd160 : List Nat → List Nat)
    (recover : List Nat → List Nat → Nat → Option (List Nat))
    (verify_compact : List Nat → List Nat → List Nat → Bool)
    (wallet_address signature message : String)
    (s : TwoCallState) (who : Bool) : TwoCallState :=
  if who then
    let r := callStep sha256 ripemd160 recover verify_compact wallet_address
      signature message s.p1 s.store
    ⟨r.2, r.1, s.p2⟩
  else
    let r := callStep sha256 ripemd160 recover verify_compact wallet_address
      signature message s.p2 s.store
    ⟨r.2, s.p1, r.1⟩

/-- Run a schedule (list of which call moves next). -/
def runSched (sha256 ripemd160 : List Nat → List Nat)
    (recover : List Nat → List Nat → Nat → Option (List Nat))
    (verify_compact : List Nat → List Nat → List Nat → Bool)
    (wallet_address signature message : String) :
    TwoCallState → List Bool → TwoCallState
  | s, [] => s
  | s, who :: rest =>
      runSched sha256 ripemd160 recover verify_compact wallet_address signature
        message
        (sysStep sha256 ripemd160 recover verify_compact wallet_address
          signature message s who) rest

/-! ### Concrete instantiations used by witnesses and counterexamples -/

/-- Stand-in SHA-256: constant 32-byte digest (hash primitives are abstract
parameters; any function of the right shape instantiates them). -/
def shaW : List Nat → List Nat := fun _ => List.replicate 32 3

/-- Stand-in RIPEMD-160: constant 20-byte digest. -/
def ripW : List Nat → List Nat := fun _ => List.replicate 20 7

/-- A concrete "public key" byte string for the recovery stand-in. -/
def pkW : List Nat := [2]

/-- Stand-in recovery oracle: recovery id 0 yields `pkW`, others fail. -/
def recW : List Nat → List Nat → Nat → Option (List Nat) :=
  fun _ _ rec_id => if rec_id = 0 then some pkW else none

/-- Stand-in compact verification that accepts everything. -/
def verAcceptW : List Nat → List Nat → List Nat → Bool := fun _ _ _ => true

/-- Stand-in compact verification that rejects everything. -/
def verRejectW : List Nat → List Nat → List Nat → Bool := fun _ _ _ => false

/-- The mainnet address derived from `pkW` under the stand-in hashes. -/
def addrW : String := derive_stacks_address shaW ripW pkW false

/-- A well-formed 64-byte signature in hex (128 `a` characters). -/
def sigW : String := "0x" ++ String.mk (List.replicate 128 'a')

/-- A one-entry store holding a live challenge for `addrW` whose message is
`"m"` and whose nonce is empty (the empty string is a substring of every
message, so the signature branch is reached). -/
def storeW : NonceStore :=
  fun k => if k = "wallet_nonce_" ++ addrW then some ⟨"", 0, "m"⟩ else none

/-- A small store with a live challenge for the syntactically valid address
`"SPX"`. -/
def storeSmallW : NonceStore :=
  fun k => if k = "wallet_nonce_SPX" then some ⟨"n", 0, "mn"⟩ else none

/-! ### Arithmetic and structural facts about the byte/radix helpers -/

theorem foldl_mul256 (l : List Nat) (a : Nat) :
    l.foldl (fun a b => a * 256 + b) a = a * 256 ^ l.length + beBytesToNat l := by
  induction l generalizing a with
  | nil => simp [beBytesToNat]
  | cons x t ih =>
      simp only [List.foldl_cons, beBytesToNat, List.length_cons, Nat.zero_mul,
        Nat.zero_add]
      rw [ih (a * 256 + x), ih x]
      ring

theorem beBytesToNat_cons (x : Nat) (l : List Nat) :
    beBytesToNat (x :: l) = x * 256 ^ l.length + beBytesToNat l := by
  simp only [beBytesToNat, List.foldl_cons]
  simpa using foldl_mul256 l x

theorem beBytesToNat_append_singleton (l : List Nat) (x : Nat) :
    beBytesToNat (l ++ [x]) = beBytesToNat l * 256 + x := by
  simp only [beBytesToNat, List.foldl_append, List.foldl_cons, List.foldl_nil]

theorem beBytesToNat_lt (l : List Nat) (h : ∀ x ∈ l, x < 256) :
    beBytesToNat l < 256 ^ l.length := by
  induction l with
  | nil => simp [beBytesToNat]
  | cons x t ih =>
      rw [beBytesToNat_cons]
      have hx : x < 256 := h x (by simp)
      have ht : beBytesToNat t < 256 ^ t.length := ih (fun y hy => h y (by simp [hy]))
      have hpow : 0 < 256 ^ t.length := Nat.pos_pow_of_pos t.length (by norm_num)
      calc x * 256 ^ t.length + beBytesToNat t
          < x * 256 ^ t.length + 256 ^ t.length := by omega
        _ = (x + 1) * 256 ^ t.length := by ring
        _ ≤ 256 * 256 ^ t.length := Nat.mul_le_mul_right _ (by omega)
        _ = 256 ^ (x :: t).length := by rw [List.length_cons]; ring

theorem natToBeBytes_length (n k : Nat) : (natToBeBytes n k).length = k := by
  induction k generalizing n with
  | zero => simp [natToBeBytes]
  | succ k ih => simp [natToBeBytes, ih]

theorem natToBeBytes_beBytesToNat (l : List Nat) (h : ∀ x ∈ l, x < 256) :
    natToBeBytes (beBytesToNat l) l.length = l := by
  induction l using List.reverseRecOn with
  | nil => simp [beBytesToNat, natToBeBytes]
  | append_singleton t x ih =>
      have hx : x < 256 := h x (by simp)
      rw [beBytesToNat_append_singleton]
      have hlen : (t ++ [x]).length = t.length + 1 := by simp
      rw [hlen]
      show natToBeBytes (beBytesToNat t * 256 + x) (t.length + 1) = t ++ [x]
      have hdiv : (beBytesToNat t * 256 + x) / 256 = beBytesToNat t := by omega
      have hmod : (beBytesToNat t * 256 + x) % 256 = x := by omega
      simp only [natToBeBytes, hdiv, hmod]
      rw [ih (fun y hy => h y (by simp [hy]))]

theorem c32digitsRevFuel_congr :
    ∀ fuel fuel' n, n ≤ fuel → n ≤ fuel' →
      c32digitsRevFuel fuel n = c32digitsRevFuel fuel' n := by
  intro fuel
  induction fuel with
  | zero =>
      intro fuel' n h h'
      interval_cases n
      cases fuel' <;> simp [c32digitsRevFuel]
  | succ f ih =>
      intro fuel' n h h'
      cases fuel' with
      | zero =>
          interval_cases n
          simp [c32digitsRevFuel]
      | succ f' =>
          by_cases hn : n = 0
          · simp [c32digitsRevFuel, hn]
          · simp only [c32digitsRevFuel, if_neg hn]
            have hlt : n / 32 < n := Nat.div_lt_self (by omega) (by omega)
            rw [ih f' (n / 32) (by omega) (by omega)]

theorem c32digitsRev_eq (n : Nat) :
    c32digitsRev n = if n = 0 then [] else (n % 32) :: c32digitsRev (n / 32) := by
  by_cases hn : n = 0
  · simp [c32digitsRev, c32digitsRevFuel, hn]
  · simp only [c32digitsRev, if_neg hn]
    obtain ⟨m, rfl⟩ : ∃ m, n = m + 1 := ⟨n - 1, by omega⟩
    simp only [c32digitsRevFuel, if_neg hn]
    have hlt : (m + 1) / 32 < m + 1 := Nat.div_lt_self (by omega) (by omega)
    rw [c32digitsRevFuel_congr m ((m + 1) / 32) ((m + 1) / 32) (by omega)
      (le_refl _)]

theorem c32digitsRev_mem_lt (n : Nat) : ∀ d ∈ c32digitsRev n, d < 32 := by
  induction n using Nat.strong_induction_on with
  | _ n ih =>
      rw [c32digitsRev_eq]
      by_cases hn : n = 0
      · simp [hn]
      · rw [if_neg hn]
        intro d hd
        rcases List.mem_cons.mp hd with h1 | h2
        · omega
        · exact ih (n / 32) (Nat.div_lt_self (by omega) (by omega)) d h2

theorem c32digitsRev_length_le_iff (k : Nat) :
    ∀ n, (c32digitsRev n).length ≤ k ↔ n < 32 ^ k := by
  induction k with
  | zero =>
      intro n
      rw [c32digitsRev_eq]
      by_cases hn : n = 0 <;> simp [hn]
  | succ k ih =>
      intro n
      rw [c32digitsRev_eq]
      by_cases hn : n = 0
      · rw [hn]
        simp only [List.length_nil]
        exact iff_of_true (Nat.zero_le _)
          (Nat.pos_pow_of_pos (k + 1) (by norm_num))
      · rw [if_neg hn]
        simp only [List.length_cons, Nat.add_le_add_iff_right,
          Nat.succ_le_succ_iff]
        rw [ih (n / 32), Nat.div_lt_iff_lt_mul (by norm_num : (0:Nat) < 32),
          Nat.pow_succ]

theorem c32digitsRev_foldl (n : Nat) :
    ∀ a, (c32digitsRev n).reverse.foldl (fun a i => a * 32 + i) a
      = a * 32 ^ (c32digitsRev n).length + n := by
  induction n using Nat.strong_induction_on with
  | _ n ih =>
      intro a
      rw [c32digitsRev_eq]
      by_cases hn : n = 0
      · simp [hn]
      · rw [if_neg hn]
        have hlt : n / 32 < n := Nat.div_lt_self (by omega) (by omega)
        simp only [List.reverse_cons, List.foldl_append, List.foldl_cons,
          List.foldl_nil, List.length_cons]
        rw [ih (n / 32) hlt a]
        have : n % 32 + 32 * (n / 32) = n := Nat.mod_add_div n 32
        ring_nf
        omega

theorem foldl_mul32_replicate_zero (k : Nat) :
    (List.replicate k 0).foldl (fun a i => a * 32 + i) 0 = 0 := by
  induction k with
  | zero => rfl
  | succ k ih => simpa [List.replicate_succ] using ih

theorem c32_alphabet_getD_zero : C32_ALPHABET.getD 0 ' ' = '0' := by decide

theorem c32_encode_eq (data : List Nat) :
    c32_encode data = String.mk
      (List.replicate
          (data.length * 8 / 5 - (c32digitsRev (beBytesToNat data)).length) '0'
        ++ (c32digitsRev (beBytesToNat data)).reverse.map
            (fun i => C32_ALPHABET.getD i ' ')) := by
  by_cases h : data = []
  · subst h
    simp [c32_encode, beBytesToNat, c32digitsRev, c32digitsRevFuel]
  · rw [c32_encode, if_neg h]
    simp only [List.reverse_append, List.reverse_replicate, List.map_append,
      List.map_replicate, c32_alphabet_getD_zero]

theorem c32_encode_length (data : List Nat) :
    (c32_encode data).length
      = max (c32digitsRev (beBytesToNat data)).length (data.length * 8 / 5) := by
  rw [c32_encode_eq]
  show (List.replicate _ '0' ++ _).length = _
  simp only [List.length_append, List.length_replicate, List.length_map,
    List.length_reverse]
  omega

theorem byte_length_of_floor (n : Nat) : ((n * 8 / 5) * 5 + 7) / 8 = n := by
  omega

theorem byte_length_of_floor_succ (n : Nat) :
    ((n * 8 / 5 + 1) * 5 + 7) / 8 = n + 1 := by
  omega

theorem pow256_le_pow32_succ (n : Nat) :
    (256 : Nat) ^ n ≤ 32 ^ (n * 8 / 5 + 1) := by
  have h1 : (256 : Nat) ^ n = 2 ^ (8 * n) := by
    rw [show (256 : Nat) = 2 ^ 8 from rfl, ← pow_mul]
  have h2 : (32 : Nat) ^ (n * 8 / 5 + 1) = 2 ^ (5 * (n * 8 / 5 + 1)) := by
    rw [show (32 : Nat) = 2 ^ 5 from rfl, ← pow_mul]
  rw [h1, h2]
  exact Nat.pow_le_pow_right (by norm_num) (by omega)

theorem pow32_le_pow256 (n : Nat) : (32 : Nat) ^ (n * 8 / 5) ≤ 256 ^ n := by
  have h1 : (256 : Nat) ^ n = 2 ^ (8 * n) := by
    rw [show (256 : Nat) = 2 ^ 8 from rfl, ← pow_mul]
  have h2 : (32 : Nat) ^ (n * 8 / 5) = 2 ^ (5 * (n * 8 / 5)) := by
    rw [show (32 : Nat) = 2 ^ 5 from rfl, ← pow_mul]
  rw [h1, h2]
  exact Nat.pow_le_pow_right (by norm_num) (by omega)

theorem findIdx_getD_of_lt :
    ∀ d, d < 32 →
      C32_ALPHABET.findIdx? (fun a => a == C32_ALPHABET.getD d ' ') = some d := by
  decide

theorem mapM_getD_digits (l : List Nat) (h : ∀ d ∈ l, d < 32) :
    (l.map (fun i => C32_ALPHABET.getD i ' ')).mapM
        (fun c => C32_ALPHABET.findIdx? (fun a => a == c)) = some l := by
  induction l with
  | nil => rfl
  | cons d t ih =>
      have hd : d < 32 := h d (by simp)
      have hfind := findIdx_getD_of_lt d hd
      simp only [List.map_cons, List.mapM_cons, hfind,
        ih (fun x hx => h x (by simp [hx])), Option.pure_def, Option.bind_some,
        Option.bind_eq_bind, Option.some_bind]

theorem c32_decode_eval (E : List Char) (D : List Nat) (hne : E ≠ [])
    (hmapM : E.mapM (fun c => C32_ALPHABET.findIdx? (fun a => a == c)) = some D) :
    c32_decode (String.mk E)
      = (if D.foldl (fun a i => a * 32 + i) 0 < 256 ^ ((E.length * 5 + 7) / 8)
         then some (natToBeBytes (D.foldl (fun a i => a * 32 + i) 0)
            ((E.length * 5 + 7) / 8))
         else none) := by
  have hSne : String.mk E ≠ "" := fun hcon => hne (congrArg String.data hcon)
  have hSdata : (String.mk E).data = E := rfl
  unfold c32_decode
  rw [if_neg hSne, hSdata, hmapM]

theorem c32_roundtrip_iff (b : List Nat) (hb : ∀ x ∈ b, x < 256) :
    c32_decode (c32_encode b) = some b
      ↔ beBytesToNat b < 32 ^ (b.length * 8 / 5) := by
  by_cases hemp : b = []
  · subst hemp
    exact iff_of_true (by decide) (by decide)
  · have hlen1 : 1 ≤ b.length := List.length_pos.mpr hemp
    have hL1 : 1 ≤ b.length * 8 / 5 := by omega
    have hVlt : beBytesToNat b < 256 ^ b.length := beBytesToNat_lt b hb
    have hDlt : ∀ x ∈ List.replicate
          (b.length * 8 / 5 - (c32digitsRev (beBytesToNat b)).length) 0
          ++ (c32digitsRev (beBytesToNat b)).reverse, x < 32 := by
      intro x hx
      rcases List.mem_append.mp hx with h1 | h2
      · have := List.eq_of_mem_replicate h1
        omega
      · exact c32digitsRev_mem_lt _ x (List.mem_reverse.mp h2)
    have hEmap :
        List.replicate
            (b.length * 8 / 5 - (c32digitsRev (beBytesToNat b)).length) '0'
          ++ (c32digitsRev (beBytesToNat b)).reverse.map
              (fun i => C32_ALPHABET.getD i ' ')
        = (List.replicate
              (b.length * 8 / 5 - (c32digitsRev (beBytesToNat b)).length) 0
            ++ (c32digitsRev (beBytesToNat b)).reverse).map
            (fun i => C32_ALPHABET.getD i ' ') := by
      rw [List.map_append, List.map_replicate, c32_alphabet_getD_zero]
    have hmapM :
        (List.replicate
            (b.length * 8 / 5 - (c32digitsRev (beBytesToNat b)).length) '0'
          ++ (c32digitsRev (beBytesToNat b)).reverse.map
              (fun i => C32_ALPHABET.getD i ' ')).mapM
          (fun c => C32_ALPHABET.findIdx? (fun a => a == c))
        = some (List.replicate
              (b.length * 8 / 5 - (c32digitsRev (beBytesToNat b)).length) 0
            ++ (c32digitsRev (beBytesToNat b)).reverse) := by
      rw [hEmap]
      exact mapM_getD_digits _ hDlt
    have hElen :
        (List.replicate
            (b.length * 8 / 5 - (c32digitsRev (beBytesToNat b)).length) '0'
          ++ (c32digitsRev (beBytesToNat b)).reverse.map
              (fun i => C32_ALPHABET.getD i ' ')).length
        = max (c32digitsRev (beBytesToNat b)).length (b.length * 8 / 5) := by
      simp only [List.length_append, List.length_replicate, List.length_map,
        List.length_reverse]
      omega
    have hEne :
        List.replicate
            (b.length * 8 / 5 - (c32digitsRev (beBytesToNat b)).length) '0'
          ++ (c32digitsRev (beBytesToNat b)).reverse.map
              (fun i => C32_ALPHABET.getD i ' ') ≠ [] := by
      intro hnil
      have := congrArg List.length hnil
      rw [hElen] at this
      simp at this
      omega
    have hnum :
        (List.replicate
            (b.length * 8 / 5 - (c32digitsRev (beBytesToNat b)).length) 0
          ++ (c32digitsRev (beBytesToNat b)).reverse).foldl
          (fun a i => a * 32 + i) 0 = beBytesToNat b := by
      rw [List.foldl_append, foldl_mul32_replicate_zero]
      simpa using c32digitsRev_foldl (beBytesToNat b) 0
    rw [c32_encode_eq b, c32_decode_eval _ _ hEne hmapM, hnum, hElen]
    by_cases hcase : beBytesToNat b < 32 ^ (b.length * 8 / 5)
    · have hdlL : (c32digitsRev (beBytesToNat b)).length ≤ b.length * 8 / 5 :=
        (c32digitsRev_length_le_iff (b.length * 8 / 5) (beBytesToNat b)).mpr hcase
      rw [Nat.max_eq_right hdlL, byte_length_of_floor b.length,
        if_pos hVlt, natToBeBytes_beBytesToNat b hb]
      exact iff_of_true rfl hcase
    · have hgt : ¬ (c32digitsRev (beBytesToNat b)).length ≤ b.length * 8 / 5 :=
        fun hle =>
          hcase ((c32digitsRev_length_le_iff (b.length * 8 / 5)
            (beBytesToNat b)).mp hle)
      have hle1 : (c32digitsRev (beBytesToNat b)).length ≤ b.length * 8 / 5 + 1 :=
        (c32digitsRev_length_le_iff (b.length * 8 / 5 + 1) (beBytesToNat b)).mpr
          (lt_of_lt_of_le hVlt (pow256_le_pow32_succ b.length))
      have hdl : (c32digitsRev (beBytesToNat b)).length = b.length * 8 / 5 + 1 := by
        omega
      rw [hdl, Nat.max_eq_left (by omega), byte_length_of_floor_succ b.length]
      have hVlt' : beBytesToNat b < 256 ^ (b.length + 1) :=
        lt_of_lt_of_le hVlt (Nat.pow_le_pow_right (by norm_num) (by omega))
      rw [if_pos hVlt']
      refine iff_of_false ?_ hcase
      intro hcon
      have hlencon := congrArg (fun o => (Option.getD o []).length) hcon
      simp only [Option.getD_some] at hlencon
      rw [natToBeBytes_length] at hlencon
      omega

/-! ### Claim C4 — c32 round trip -/

/-- C4, counterexample: the round trip is *not* the identity on every byte
string.  For the single byte `0xff` the encoder emits the two symbols `7Z`
(no padding is added because `1 * 8 // 5 = 1` and the value already needs
two digits), and the decoder reconstitutes `(2 * 5 + 7) // 8 = 2` bytes,
yielding a spurious leading zero byte. -/
theorem c32_roundtrip_counterexample :
    c32_decode (c32_encode [255]) = some [0, 255]
      ∧ c32_decode (c32_encode [255]) ≠ some [255] := by
  exact ⟨by decide, by decide⟩

/-- C4 (amended): the round trip `c32_decode (c32_encode b) = b` holds
exactly when the big-endian value of `b` fits in `len(b) * 8 // 5` base-32
digits (so for all `b` whose length is a multiple of 5, and in general
whenever the value is below `32 ^ (len * 8 // 5)`); otherwise the decoder
returns `b` with one extra leading zero byte. -/
theorem c32_roundtrip_characterization (b : List Nat) (hb : ∀ x ∈ b, x < 256) :
    c32_decode (c32_encode b) = some b
      ↔ beBytesToNat b < 32 ^ (b.length * 8 / 5) :=
  c32_roundtrip_iff b hb

/-- Witness for C4's amended theorem at the concrete byte string `[1]`. -/
theorem c32_roundtrip_characterization_witness :
    c32_decode (c32_encode [1]) = some [1] :=
  (c32_roundtrip_characterization [1] (by decide)).mpr (by decide)

/-! ### Claim C8 — encoded length -/

/-- C8, counterexample: the encoded length is not `ceil(len * 8 / 5)`.  For
the single zero byte the encoder pads only up to `1 * 8 // 5 = 1` symbol,
while `ceil(1 * 8 / 5) = 2`. -/
theorem c32_encode_length_counterexample :
    (c32_encode [0]).length = 1 ∧ ([0].length * 8 + 4) / 5 = 2 := by
  exact ⟨by decide, by decide⟩

/-- C8 (amended): for every non-empty byte string the encoder left-pads with
the zero symbol `'0'` up to `len * 8 // 5` (floor, not ceiling) symbols, so
the encoded length is the maximum of the value's base-32 digit count and
`len * 8 // 5`. -/
theorem c32_encode_length_amended (b : List Nat) (hne : b ≠ []) :
    (c32_encode b).length
        = max (c32digitsRev (beBytesToNat b)).length (b.length * 8 / 5)
      ∧ c32_encode b = String.mk
          (List.replicate
              (b.length * 8 / 5 - (c32digitsRev (beBytesToNat b)).length) '0'
            ++ (c32digitsRev (beBytesToNat b)).reverse.map
                (fun i => C32_ALPHABET.getD i ' ')) :=
  ⟨c32_encode_length b, c32_encode_eq b⟩

/-- Witness for C8's amended theorem at the concrete byte string `[0]`. -/
theorem c32_encode_length_amended_witness :
    (c32_encode [0]).length
        = max (c32digitsRev (beBytesToNat [0])).length ([0].length * 8 / 5)
      ∧ c32_encode [0] = String.mk
          (List.replicate
              ([0].length * 8 / 5 - (c32digitsRev (beBytesToNat [0])).length) '0'
            ++ (c32digitsRev (beBytesToNat [0])).reverse.map
                (fun i => C32_ALPHABET.getD i ' ')) :=
  c32_encode_length_amended [0] (by decide)

/-! ### Claim C10 — address shape -/

theorem c32_alphabet_getD_mem : ∀ i, i < 32 → C32_ALPHABET.getD i ' ' ∈ C32_ALPHABET := by
  decide

theorem isPrefixOf_append_self (p r : List Char) : p.isPrefixOf (p ++ r) = true := by
  induction p with
  | nil => simp [List.isPrefixOf]
  | cons a t ih => simpa [List.isPrefixOf] using ih

/-- C10: whenever the hash primitives have their real output shapes (20-byte
RIPEMD-160 digest, 32-byte SHA-256 digests, all entries bytes), the derived
address is exactly 42 characters: the network marker `"SP"`/`"ST"` followed
by exactly 40 symbols of the c32 alphabet — the encoded payload
(1 version byte, 20-byte hash160, 4-byte checksum) is always exactly 25
bytes, and `25 * 8 // 5 = 40` with a value below `32 ^ 40`. -/
theorem derive_address_shape (sha256 ripemd160 : List Nat → List Nat)
    (pk : List Nat) (t : Bool)
    (hrip_len : (ripemd160 (sha256 pk)).length = 20)
    (hrip_lt : ∀ x ∈ ripemd160 (sha256 pk), x < 256)
    (hsha_len : ∀ l, (sha256 l).length = 32)
    (hsha_lt : ∀ l, ∀ x ∈ sha256 l, x < 256) :
    (derive_stacks_address sha256 ripemd160 pk t).length = 42
      ∧ strStarts (derive_stacks_address sha256 ripemd160 pk t)
          (if t then "ST" else "SP") = true
      ∧ ∀ c ∈ (derive_stacks_address sha256 ripemd160 pk t).data.drop 2,
          c ∈ C32_ALPHABET := by
  have hpayload_len :
      (((if t then 26 else 22) :: ripemd160 (sha256 pk))
        ++ (sha256 (sha256 ((if t then 26 else 22) :: ripemd160 (sha256 pk)))).take 4).length
      = 25 := by
    simp only [List.length_append, List.length_cons, hrip_len,
      List.length_take, hsha_len]
    omega
  have hpayload_lt :
      ∀ x ∈ ((if t then 26 else 22) :: ripemd160 (sha256 pk))
        ++ (sha256 (sha256 ((if t then 26 else 22) :: ripemd160 (sha256 pk)))).take 4,
        x < 256 := by
    intro x hx
    rcases List.mem_append.mp hx with h1 | h2
    · rcases List.mem_cons.mp h1 with h3 | h4
      · split at h3 <;> omega
      · exact hrip_lt x h4
    · exact hsha_lt _ x (List.take_subset 4 _ h2)
  have hval :
      beBytesToNat (((if t then 26 else 22) :: ripemd160 (sha256 pk))
        ++ (sha256 (sha256 ((if t then 26 else 22) :: ripemd160 (sha256 pk)))).take 4)
      < 32 ^ 40 := by
    have := beBytesToNat_lt _ hpayload_lt
    rw [hpayload_len] at this
    calc beBytesToNat _ < 256 ^ 25 := this
      _ = 32 ^ 40 := by norm_num
  have hdl :
      (c32digitsRev (beBytesToNat (((if t then 26 else 22) :: ripemd160 (sha256 pk))
        ++ (sha256 (sha256 ((if t then 26 else 22) :: ripemd160 (sha256 pk)))).take 4))).length
      ≤ 40 := (c32digitsRev_length_le_iff 40 _).mpr hval
  have henc_len :
      (c32_encode (((if t then 26 else 22) :: ripemd160 (sha256 pk))
        ++ (sha256 (sha256 ((if t then 26 else 22) :: ripemd160 (sha256 pk)))).take 4)).length
      = 40 := by
    rw [c32_encode_length, hpayload_len]
    omega
  have hderive :
      derive_stacks_address sha256 ripemd160 pk t
        = (if t then "ST" else "SP")
          ++ c32_encode (((if t then 26 else 22) :: ripemd160 (sha256 pk))
            ++ (sha256 (sha256 ((if t then 26 else 22) :: ripemd160 (sha256 pk)))).take 4) := by
    rfl
  refine ⟨?_, ?_, ?_⟩
  · rw [hderive, String.length_append, henc_len]
    cases t <;> rfl
  · rw [hderive, strStarts, String.data_append]
    exact isPrefixOf_append_self _ _
  · intro c hc
    rw [hderive, String.data_append] at hc
    have hpre : (if t then "ST" else "SP").data.length = 2 := by cases t <;> rfl
    rw [← hpre, List.drop_left] at hc
    rw [c32_encode_eq] at hc
    have hc' : c ∈ List.replicate _ '0'
        ++ (c32digitsRev (beBytesToNat _)).reverse.map
            (fun i => C32_ALPHABET.getD i ' ') := hc
    rcases List.mem_append.mp hc' with h1 | h2
    · rw [List.eq_of_mem_replicate h1]
      decide
    · rcases List.mem_map.mp h2 with ⟨i, hi, rfl⟩
      exact c32_alphabet_getD_mem i
        (c32digitsRev_mem_lt _ i (List.mem_reverse.mp hi))

/-- Witness for C10 at the stand-in hash functions (correct output shapes)
and the concrete key `pkW`. -/
theorem derive_address_shape_witness :
    (derive_stacks_address shaW ripW pkW false).length = 42
      ∧ strStarts (derive_stacks_address shaW ripW pkW false)
          (if false then "ST" else "SP") = true
      ∧ ∀ c ∈ (derive_stacks_address shaW ripW pkW false).data.drop 2,
          c ∈ C32_ALPHABET :=
  derive_address_shape shaW ripW pkW false (by decide)
    (by intro x hx; have := List.eq_of_mem_replicate hx; omega)
    (fun _ => rfl)
    (by intro l x hx; have := List.eq_of_mem_replicate hx; omega)

/-! ### Claim C7 — address derivation formula -/

/-- C7: `derive_stacks_address` computes exactly the spec's formula —
`hash160 = RIPEMD160(SHA256(pk))`, version byte 26 (testnet) or 22
(mainnet), checksum = first 4 bytes of the double SHA-256 of
version∥hash160, result = `"ST"`/`"SP"` followed by the c32 encoding of
version∥hash160∥checksum.  Purity/determinism is inherent: the embedded
function is a mathematical function of the key bytes and the network flag
(given the hash primitives), so identical inputs yield the identical text. -/
theorem derive_address_matches_spec (sha256 ripemd160 : List Nat → List Nat)
    (public_key : List Nat) (testnet : Bool) :
    derive_stacks_address sha256 ripemd160 public_key testnet
      = deriveAddressSpec sha256 ripemd160 public_key testnet := by
  rfl

/-! ### Claim C5 — signature parser -/

/-- C5: after stripping an optional `0x`/`0X` prefix and hex-decoding
(failure on non-hexadecimal input propagates as a parse failure), the parser
uniformly returns the *trailing* 64 bytes with recovery hint unknown for
every decoded length of at least 64 bytes (65 ⇒ last 64, 64 ⇒ as is,
more than 65 ⇒ trailing 64), and fails for every shorter decoding. -/
theorem parse_signature_cases (s : String) :
    parseStacksConnectSignature s
      = match fromhex (strip0x s.data) with
        | none => none
        | some bs =>
            if bs.length < 64 then none
            else some ⟨bs.drop (bs.length - 64), none⟩ := by
  cases h : fromhex (strip0x s.data) with
  | none => simp only [parseStacksConnectSignature, h]
  | some bs =>
      simp only [parseStacksConnectSignature, h]
      by_cases h65 : bs.length = 65
      · rw [if_pos h65, if_neg (by omega)]
        rw [h65]
      · rw [if_neg h65]
        by_cases h64 : bs.length = 64
        · rw [if_pos h64, if_neg (by omega), h64]
          norm_num
        · rw [if_neg h64]
          by_cases hgt : bs.length > 65
          · rw [if_pos hgt, if_neg (by omega)]
          · rw [if_neg hgt, if_pos (by omega)]

/-! ### Claim C1 — full verification chain -/

theorem parse_recovery_id_none (s : String) (sd : SigData)
    (h : parseStacksConnectSignature s = some sd) : sd.recovery_id = none := by
  cases hf : fromhex (strip0x s.data) with
  | none =>
      simp only [parseStacksConnectSignature, hf] at h
      exact Option.noConfusion h
  | some bs =>
      simp only [parseStacksConnectSignature, hf] at h
      split_ifs at h <;> (injection h with h'; rw [← h'])

theorem findSome?_range_eq_some_iff {α : Type} (f : Nat → Option α) (n : Nat)
    (x : α) :
    (List.range n).findSome? f = some x
      ↔ ∃ i, i < n ∧ f i = some x ∧ ∀ j, j < i → f j = none := by
  induction n with
  | zero =>
      simp [List.findSome?]
  | succ n ih =>
      rw [List.range_succ, List.findSome?_append]
      cases hn : (List.range n).findSome? f with
      | some y =>
          constructor
          · intro he
            have hyx : y = x := by
              have : some y = some x := he
              injection this
            subst hyx
            obtain ⟨i, hi, hf, hmin⟩ := ih.mp hn
            exact ⟨i, by omega, hf, hmin⟩
          · rintro ⟨i, hi, hf, hmin⟩
            by_cases hin : i < n
            · have : (List.range n).findSome? f = some x :=
                ih.mpr ⟨i, hin, hf, hmin⟩
              rw [hn] at this
              exact this
            · have hie : i = n := by omega
              subst hie
              have : (List.range i).findSome? f = none :=
                List.findSome?_eq_none.mpr
                  (fun j hj => hmin j (List.mem_range.mp hj))
              rw [hn] at this
              exact Option.noConfusion this
      | none =>
          have hall : ∀ j < n, f j = none := fun j hj =>
            List.findSome?_eq_none.mp hn j (List.mem_range.mpr hj)
          constructor
          · intro he
            have hfn : f n = some x := by
              cases hfn' : f n with
              | none => simp [List.findSome?, hfn'] at he
              | some z => simpa [List.findSome?, hfn'] using he
            exact ⟨n, by omega, hfn, hall⟩
          · rintro ⟨i, hi, hf, hmin⟩
            have hie : i = n := by
              by_contra hne
              have hlt : i < n := by omega
              rw [hall i hlt] at hf
              exact Option.noConfusion hf
            subst hie
            simp [List.findSome?, hf]

theorem firstMatchKey_eq_some_iff (sha256 ripemd160 : List Nat → List Nat)
    (recover : List Nat → List Nat → Nat → Option (List Nat))
    (wa : String) (sb dig : List Nat) (pk : List Nat) :
    firstMatchKey sha256 ripemd160 recover wa sb dig [0, 1, 2, 3] = some pk
      ↔ ∃ rec_id, rec_id < 4
          ∧ recover sb dig rec_id = some pk
          ∧ (derive_stacks_address sha256 ripemd160 pk false = wa
              ∨ derive_stacks_address sha256 ripemd160 pk true = wa)
          ∧ ∀ j pk', j < rec_id → recover sb dig j = some pk'
              → ¬(derive_stacks_address sha256 ripemd160 pk' false = wa
                  ∨ derive_stacks_address sha256 ripemd160 pk' true = wa) := by
  have hrange : ([0, 1, 2, 3] : List Nat) = List.range 4 := by decide
  unfold firstMatchKey
  rw [hrange, findSome?_range_eq_some_iff]
  constructor
  · rintro ⟨i, hi, hf, hmin⟩
    cases hr : recover sb dig i with
    | none =>
        simp only [hr] at hf
        exact Option.noConfusion hf
    | some pk0 =>
        simp only [hr] at hf
        by_cases hcond : derive_stacks_address sha256 ripemd160 pk0 false = wa
            ∨ derive_stacks_address sha256 ripemd160 pk0 true = wa
        · rw [if_pos hcond] at hf
          have hpk : pk0 = pk := by injection hf
          subst hpk
          refine ⟨i, hi, hr, hcond, ?_⟩
          intro j pk' hj hrj hcond'
          have hj' := hmin j hj
          simp only [hrj, if_pos hcond'] at hj'
          exact Option.noConfusion hj'
        · rw [if_neg hcond] at hf
          exact Option.noConfusion hf
  · rintro ⟨i, hi, hr, hcond, hmin⟩
    refine ⟨i, hi, ?_, ?_⟩
    · simp only [hr, if_pos hcond]
    · intro j hj
      cases hrj : recover sb dig j with
      | none => simp only [hrj]
      | some pk' => simp only [hrj, if_neg (hmin j pk' hj hrj)]

/-- C1 (amended): `verify_stacks_signature` succeeds exactly when all three
inputs are non-empty, the address is shaped `SP…`/`ST…` (these presence and
shape preconditions are checked before any cryptography and are missing
from the claim's plain "if and only if" — see the counterexample at the
empty message), the signature parses to 64 `(r,s)` bytes and,
over the digest SHA-256(UTF-8 bytes of the message) with no extra
domain-separation framing, the *first* recovery id in 0–3 that recovers a
key whose derived mainnet or testnet address equals the wallet address by
exact string equality exists and the independent non-recovering compact
verification of `(r,s)` against that key and digest passes; if no candidate
matches across all recovery ids and both networks, or the independent check
fails on the matched key, the call fails. -/
theorem verify_stacks_signature_iff (sha256 ripemd160 : List Nat → List Nat)
    (recover : List Nat → List Nat → Nat → Option (List Nat))
    (verify_compact : List Nat → List Nat → List Nat → Bool)
    (wallet_address message signature : String) :
    verifyStacksSignature sha256 ripemd160 recover verify_compact
        wallet_address message signature = true
      ↔ (wallet_address ≠ "" ∧ message ≠ "" ∧ signature ≠ ""
          ∧ (strStarts wallet_address "SP" = true
              ∨ strStarts wallet_address "ST" = true)
          ∧ ∃ sd, parseStacksConnectSignature signature = some sd
            ∧ ∃ rec_id pk, rec_id < 4
              ∧ recover sd.signature (hash_stacks_message sha256 message) rec_id
                  = some pk
              ∧ (derive_stacks_address sha256 ripemd160 pk false = wallet_address
                  ∨ derive_stacks_address sha256 ripemd160 pk true = wallet_address)
              ∧ (∀ j pk', j < rec_id
                  → recover sd.signature (hash_stacks_message sha256 message) j
                      = some pk'
                  → ¬(derive_stacks_address sha256 ripemd160 pk' false
                        = wallet_address
                      ∨ derive_stacks_address sha256 ripemd160 pk' true
                          = wallet_address))
              ∧ verify_compact pk sd.signature (hash_stacks_message sha256 message)
                  = true) := by
  by_cases h0 : wallet_address = "" ∨ message = "" ∨ signature = ""
  · refine iff_of_false ?_ ?_
    · simp [verifyStacksSignature, h0]
    · rintro ⟨h1, h2, h3, -⟩
      tauto
  · push_neg at h0
    obtain ⟨hw, hm, hs⟩ := h0
    by_cases hsp : (strStarts wallet_address "SP"
        || strStarts wallet_address "ST") = true
    · cases hp : parseStacksConnectSignature signature with
      | none =>
          refine iff_of_false ?_ ?_
          · simp [verifyStacksSignature, hp, hw, hm, hs, hsp]
          · rintro ⟨-, -, -, -, sd, hsd, -⟩
            exact Option.noConfusion hsd
      | some sd =>
          have hrid : sd.recovery_id = none := parse_recovery_id_none _ _ hp
          have hlhs :
              verifyStacksSignature sha256 ripemd160 recover verify_compact
                  wallet_address message signature
                = match firstMatchKey sha256 ripemd160 recover wallet_address
                    sd.signature (hash_stacks_message sha256 message)
                    [0, 1, 2, 3] with
                  | none => false
                  | some public_key =>
                      verify_compact public_key sd.signature
                        (hash_stacks_message sha256 message) := by
            simp only [verifyStacksSignature, if_neg (by tauto :
                ¬(wallet_address = "" ∨ message = "" ∨ signature = "")),
              hsp, hp, hrid]
            simp
          rw [hlhs]
          cases hfm : firstMatchKey sha256 ripemd160 recover wallet_address
              sd.signature (hash_stacks_message sha256 message) [0, 1, 2, 3] with
          | none =>
              refine iff_of_false (by simp) ?_
              rintro ⟨-, -, -, -, sd', hsd', rec_id, pk, hlt, hrec, hcond, hmin, -⟩
              have hsd'' : sd' = sd := by
                injection hsd' with h
                exact h.symm
              subst hsd''
              have : firstMatchKey sha256 ripemd160 recover wallet_address
                  sd'.signature (hash_stacks_message sha256 message) [0, 1, 2, 3]
                  = some pk :=
                (firstMatchKey_eq_some_iff _ _ _ _ _ _ _).mpr
                  ⟨rec_id, hlt, hrec, hcond, hmin⟩
              rw [hfm] at this
              exact Option.noConfusion this
          | some pk =>
              constructor
              · intro hver
                obtain ⟨rec_id, hlt, hrec, hcond, hmin⟩ :=
                  (firstMatchKey_eq_some_iff _ _ _ _ _ _ _).mp hfm
                exact ⟨hw, hm, hs, by simpa [Bool.or_eq_true] using hsp,
                  sd, rfl, rec_id, pk, hlt, hrec, hcond, hmin, hver⟩
              · rintro ⟨-, -, -, -, sd', hsd', rec_id, pk', hlt, hrec, hcond,
                  hmin, hver⟩
                have hsd'' : sd' = sd := by
                  injection hsd' with h
                  exact h.symm
                subst hsd''
                have hfm' : firstMatchKey sha256 ripemd160 recover wallet_address
                    sd'.signature (hash_stacks_message sha256 message) [0, 1, 2, 3]
                    = some pk' :=
                  (firstMatchKey_eq_some_iff _ _ _ _ _ _ _).mpr
                    ⟨rec_id, hlt, hrec, hcond, hmin⟩
                rw [hfm] at hfm'
                have hpk : pk' = pk := by
                  injection hfm' with h
                  exact h.symm
                subst hpk
                exact hver
    · refine iff_of_false ?_ ?_
      · simp [verifyStacksSignature, hsp, hw, hm, hs]
      · rintro ⟨-, -, -, hcond, -⟩
        rcases hcond with h | h <;> simp [h] at hsp

/-! ### Wallet-auth endpoint facts shared by several claims -/

theorem afterRead_some_store (sha256 ripemd160 : List Nat → List Nat)
    (recover : List Nat → List Nat → Nat → Option (List Nat))
    (verify_compact : List Nat → List Nat → List Nat → Bool)
    (store : NonceStore) (wallet_address signature message : String)
    (cached : CachedNonce) :
    (verifyAfterRead sha256 ripemd160 recover verify_compact store
        wallet_address signature message (some cached)).2
      = cacheDelete store ("wallet_nonce_" ++ wallet_address) := by
  unfold verifyAfterRead
  dsimp only
  split_ifs <;> rfl

theorem afterRead_some_ne_expired (sha256 ripemd160 : List Nat → List Nat)
    (recover : List Nat → List Nat → Nat → Option (List Nat))
    (verify_compact : List Nat → List Nat → List Nat → Bool)
    (store : NonceStore) (wallet_address signature message : String)
    (cached : CachedNonce) :
    (verifyAfterRead sha256 ripemd160 recover verify_compact store
        wallet_address signature message (some cached)).1
      ≠ VerifyResponse.expiredNonce := by
  unfold verifyAfterRead
  dsimp only
  split_ifs <;> simp

theorem afterRead_none_eq (sha256 ripemd160 : List Nat → List Nat)
    (recover : List Nat → List Nat → Nat → Option (List Nat))
    (verify_compact : List Nat → List Nat → List Nat → Bool)
    (store : NonceStore) (wallet_address signature message : String) :
    verifyAfterRead sha256 ripemd160 recover verify_compact store
        wallet_address signature message none
      = (VerifyResponse.expiredNonce, store) := rfl

theorem cacheDelete_self (store : NonceStore) (key : String) :
    cacheDelete store key key = none := by
  simp [cacheDelete]

/-! ### Claim C2 — challenge consumed on every completed verification -/

/-- C2: any `verify` call that finds a stored challenge for the address —
whether it then succeeds or fails with message mismatch, nonce mismatch, or
signature failure — leaves no challenge entry for that address, and any
subsequent `verify` call for the same address (in particular a replay with
the same message and a valid signature) fails with the
challenge-expired-or-missing response. -/
theorem verify_consumes_challenge (sha256 ripemd160 : List Nat → List Nat)
    (recover : List Nat → List Nat → Nat → Option (List Nat))
    (verify_compact : List Nat → List Nat → List Nat → Bool)
    (store : NonceStore) (wallet_address signature message : String)
    (h : (store ("wallet_nonce_" ++ wallet_address)).isSome) :
    (verifyEndpoint sha256 ripemd160 recover verify_compact store
        wallet_address signature message).2 ("wallet_nonce_" ++ wallet_address)
      = none
    ∧ ∀ signature' message',
        verifyEndpoint sha256 ripemd160 recover verify_compact
          (verifyEndpoint sha256 ripemd160 recover verify_compact store
            wallet_address signature message).2
          wallet_address signature' message'
        = (VerifyResponse.expiredNonce,
           (verifyEndpoint sha256 ripemd160 recover verify_compact store
             wallet_address signature message).2) := by
  obtain ⟨cached, hc⟩ := Option.isSome_iff_exists.mp h
  have hsnd :
      (verifyEndpoint sha256 ripemd160 recover verify_compact store
        wallet_address signature message).2
      = cacheDelete store ("wallet_nonce_" ++ wallet_address) := by
    unfold verifyEndpoint
    rw [hc]
    exact afterRead_some_store _ _ _ _ _ _ _ _ _
  constructor
  · rw [hsnd]
    exact cacheDelete_self _ _
  · intro signature' message'
    rw [hsnd]
    unfold verifyEndpoint
    rw [cacheDelete_self]
    rfl

/-- Witness for C2 at a concrete one-entry store and concrete inputs. -/
theorem verify_consumes_challenge_witness :
    (verifyEndpoint shaW ripW recW verAcceptW storeSmallW
        "SPX" "s" "m").2 ("wallet_nonce_" ++ "SPX") = none
    ∧ verifyEndpoint shaW ripW recW verAcceptW
        (verifyEndpoint shaW ripW recW verAcceptW storeSmallW "SPX" "s" "m").2
        "SPX" "s" "m"
      = (VerifyResponse.expiredNonce,
         (verifyEndpoint shaW ripW recW verAcceptW storeSmallW "SPX" "s" "m").2) :=
  ⟨(verify_consumes_challenge shaW ripW recW verAcceptW storeSmallW
      "SPX" "s" "m" (by decide)).1,
   (verify_consumes_challenge shaW ripW recW verAcceptW storeSmallW
      "SPX" "s" "m" (by decide)).2 "s" "m"⟩

/-! ### Claim C9 — issued nonce is a substring of the issued message -/

/-- C9: the nonce generated by the issue endpoint appears verbatim in the
stored message text (`"...\nNonce: " + nonce + "\nTimestamp: ..."`), so on a
store produced by the issue endpoint a `verify` call can never return the
"Invalid nonce in message" response: if the submitted message matches the
stored one exactly, the nonce-substring check necessarily passes — that
failure branch is unreachable for challenges issued by the store. -/
theorem issued_nonce_substring (store : NonceStore)
    (wallet_address nonce : String) (timestamp : Nat) :
    pyInStr nonce (nonceMessage wallet_address nonce timestamp) = true
    ∧ ∀ (sha256 ripemd160 : List Nat → List Nat)
        (recover : List Nat → List Nat → Nat → Option (List Nat))
        (verify_compact : List Nat → List Nat → List Nat → Bool)
        (signature message : String),
        (verifyEndpoint sha256 ripemd160 recover verify_compact
            (issueEndpoint store wallet_address nonce timestamp).2
            wallet_address signature message).1
          ≠ VerifyResponse.invalidNonce := by
  have hsubstr : pyInStr nonce (nonceMessage wallet_address nonce timestamp)
      = true := by
    simp only [pyInStr, nonceMessage, decide_eq_true_eq, String.data_append]
    exact ⟨("Sign this message to authenticate with Deorganized.\n\nWallet: ").data
        ++ wallet_address.data ++ ("\nNonce: ").data,
      ("\nTimestamp: ").data ++ (toString timestamp).data
        ++ ("\n\nThis request will expire in 5 minutes.").data,
      by simp [List.append_assoc]⟩
  refine ⟨hsubstr, ?_⟩
  intro sha256 ripemd160 recover verify_compact signature message
  have hkey : (issueEndpoint store wallet_address nonce timestamp).2
      ("wallet_nonce_" ++ wallet_address)
      = some ⟨nonce, timestamp, nonceMessage wallet_address nonce timestamp⟩ := by
    simp [issueEndpoint]
  unfold verifyEndpoint
  rw [hkey]
  unfold verifyAfterRead
  dsimp only
  by_cases hm : nonceMessage wallet_address nonce timestamp ≠ message
  · rw [if_pos hm]
    simp
  · rw [if_neg hm]
    push_neg at hm
    have hin : pyInStr nonce message = true := hm ▸ hsubstr
    rw [if_neg (by simp [hin])]
    split_ifs <;> simp

/-! ### Claim C6 — response to the malformed signature `"0x1234"` -/

/-- C6, counterexample: with a live challenge and an exactly matching
message, submitting `"0x1234"` does *not* produce a distinct
MalformedSignature/InvalidLength error kind — the endpoint returns exactly
the same 401 "Invalid signature. Signature verification failed." response
value that a well-formed 64-byte signature failing cryptographic
verification produces (the only signature-related response the source has). -/
theorem malformed_signature_response_counterexample :
    (verifyEndpoint shaW ripW recW verAcceptW storeW addrW "0x1234" "m").1
        = VerifyResponse.invalidSignature
    ∧ (verifyEndpoint shaW ripW recW verRejectW storeW addrW sigW "m").1
        = VerifyResponse.invalidSignature
    ∧ (verifyEndpoint shaW ripW recW verAcceptW storeW addrW "0x1234" "m").1
        = (verifyEndpoint shaW ripW recW verRejectW storeW addrW sigW "m").1 := by
  exact ⟨by decide, by decide, by decide⟩

theorem parse_0x1234_none : parseStacksConnectSignature "0x1234" = none := by
  decide

theorem vss_0x1234_false (sha256 ripemd160 : List Nat → List Nat)
    (recover : List Nat → List Nat → Nat → Option (List Nat))
    (verify_compact : List Nat → List Nat → List Nat → Bool)
    (wallet_address message : String) :
    verifyStacksSignature sha256 ripemd160 recover verify_compact
      wallet_address message "0x1234" = false := by
  simp only [verifyStacksSignature, parse_0x1234_none]
  split_ifs <;> rfl

/-- C6 (amended): when a live challenge exists and the submitted message
matches the stored message exactly (and the stored nonce occurs in it),
submitting `"0x1234"` makes `verify` fail with the 401
"Invalid signature" response — the *same* error kind produced when a
well-formed signature fails cryptographic verification; the source has no
separate MalformedSignature kind, because the parse failure happens inside
`verify_stacks_signature`, which collapses it into a `False` verdict. -/
theorem malformed_signature_gives_invalid_signature
    (sha256 ripemd160 : List Nat → List Nat)
    (recover : List Nat → List Nat → Nat → Option (List Nat))
    (verify_compact : List Nat → List Nat → List Nat → Bool)
    (store : NonceStore) (wallet_address message : String)
    (cached : CachedNonce)
    (hget : store ("wallet_nonce_" ++ wallet_address) = some cached)
    (hmsg : cached.message = message)
    (hnonce : pyInStr cached.nonce message = true) :
    verifyEndpoint sha256 ripemd160 recover verify_compact store
        wallet_address "0x1234" message
      = (VerifyResponse.invalidSignature,
         cacheDelete store ("wallet_nonce_" ++ wallet_address)) := by
  unfold verifyEndpoint
  rw [hget]
  unfold verifyAfterRead
  dsimp only
  rw [if_neg (by simp [hmsg]), if_neg (by simp [hnonce]),
    if_pos (vss_0x1234_false sha256 ripemd160 recover verify_compact
      wallet_address message)]

/-- Witness for C6's amended theorem at the concrete store `storeW`. -/
theorem malformed_signature_gives_invalid_signature_witness :
    verifyEndpoint shaW ripW recW verAcceptW storeW addrW "0x1234" "m"
      = (VerifyResponse.invalidSignature,
         cacheDelete storeW ("wallet_nonce_" ++ addrW)) :=
  malformed_signature_gives_invalid_signature shaW ripW recW verAcceptW storeW
    addrW "m" ⟨"", 0, "m"⟩ (by decide) rfl (by decide)

/-! ### Claim C3 — consume is not atomic: the race can double-spend -/

/-- C3, counterexample: the source's `consume` is a `cache.get` followed by
a separate `cache.delete`, not one atomic step.  Under the interleaving
read₁, read₂, finish₁, finish₂ — with a live challenge, matching message and
a signature that verifies — *both* concurrent `verify` calls succeed,
refuting "exactly one succeeds and the other fails with
`ChallengeExpiredOrMissing`". -/
theorem consume_not_atomic_counterexample :
    (runSched shaW ripW recW verAcceptW addrW sigW "m"
        ⟨storeW, CallPhase.ready, CallPhase.ready⟩
        [true, false, true, false]).p1
      = CallPhase.finished VerifyResponse.success
    ∧ (runSched shaW ripW recW verAcceptW addrW sigW "m"
        ⟨storeW, CallPhase.ready, CallPhase.ready⟩
        [true, false, true, false]).p2
      = CallPhase.finished VerifyResponse.success := by
  exact ⟨by decide, by decide⟩

/-- C3 (amended): the store's consume is a read followed by a separate
delete, so two overlapping `verify` calls for the same address can both
succeed (see the counterexample); when the two calls are serialized (the
first completes before the second reads), the completed first call consumes
the challenge, so the second fails with the challenge-expired response and
the first never reports challenge-expired — at most one can succeed, and
with a valid signature exactly one does. -/
theorem consume_serialized_exactly_one (sha256 ripemd160 : List Nat → List Nat)
    (recover : List Nat → List Nat → Nat → Option (List Nat))
    (verify_compact : List Nat → List Nat → List Nat → Bool)
    (store : NonceStore) (wallet_address signature message : String)
    (h : (store ("wallet_nonce_" ++ wallet_address)).isSome) :
    (runSched sha256 ripemd160 recover verify_compact wallet_address signature
        message ⟨store, CallPhase.ready, CallPhase.ready⟩
        [true, true, false, false]).p1
      ≠ CallPhase.finished VerifyResponse.expiredNonce
    ∧ (runSched sha256 ripemd160 recover verify_compact wallet_address signature
        message ⟨store, CallPhase.ready, CallPhase.ready⟩
        [true, true, false, false]).p2
      = CallPhase.finished VerifyResponse.expiredNonce := by
  obtain ⟨cached, hc⟩ := Option.isSome_iff_exists.mp h
  have hdelkey :
      (verifyAfterRead sha256 ripemd160 recover verify_compact store
        wallet_address signature message (some cached)).2
        ("wallet_nonce_" ++ wallet_address) = none := by
    rw [afterRead_some_store]
    exact cacheDelete_self _ _
  have hrun :
      runSched sha256 ripemd160 recover verify_compact wallet_address signature
        message ⟨store, CallPhase.ready, CallPhase.ready⟩
        [true, true, false, false]
      = ⟨(verifyAfterRead sha256 ripemd160 recover verify_compact store
            wallet_address signature message (some cached)).2,
         CallPhase.finished
           (verifyAfterRead sha256 ripemd160 recover verify_compact store
             wallet_address signature message (some cached)).1,
         CallPhase.finished VerifyResponse.expiredNonce⟩ := by
    simp [runSched, sysStep, callStep, hc, hdelkey, afterRead_none_eq]
  rw [hrun]
  constructor
  · intro hcon
    have : (verifyAfterRead sha256 ripemd160 recover verify_compact store
        wallet_address signature message (some cached)).1
        = VerifyResponse.expiredNonce := by
      injection hcon
    exact afterRead_some_ne_expired sha256 ripemd160 recover verify_compact
      store wallet_address signature message cached this
  · rfl

/-- Witness for C3's amended theorem at a concrete one-entry store. -/
theorem consume_serialized_exactly_one_witness :
    (runSched shaW ripW recW verAcceptW "SPX" "s" "m"
        ⟨storeSmallW, CallPhase.ready, CallPhase.ready⟩
        [true, true, false, false]).p1
      ≠ CallPhase.finished VerifyResponse.expiredNonce
    ∧ (runSched shaW ripW recW verAcceptW "SPX" "s" "m"
        ⟨storeSmallW, CallPhase.ready, CallPhase.ready⟩
        [true, true, false, false]).p2
      = CallPhase.finished VerifyResponse.expiredNonce :=
  consume_serialized_exactly_one shaW ripW recW verAcceptW storeSmallW
    "SPX" "s" "m" (by decide)

/-- C1, counterexample: the claimed "if and only if" fails at the empty
message.  `verify_stacks_signature` returns `False` for an empty message
before any cryptography runs (the input-presence check), even when the
parsed `(r,s)` bytes recover — under some recovery id — a public key whose
derived mainnet address equals the wallet address and the independent
compact verification against that key passes. -/
theorem verify_empty_message_counterexample :
    verifyStacksSignature shaW ripW recW verAcceptW addrW "" sigW = false
    ∧ ∃ sd, parseStacksConnectSignature sigW = some sd
      ∧ ∃ rec_id pk, rec_id < 4
        ∧ recW sd.signature (hash_stacks_message shaW "") rec_id = some pk
        ∧ (derive_stacks_address shaW ripW pk false = addrW
            ∨ derive_stacks_address shaW ripW pk true = addrW)
        ∧ verAcceptW pk sd.signature (hash_stacks_message shaW "") = true :=
  ⟨by decide,
   ⟨List.replicate 64 170, none⟩, by decide,
   0, pkW, by decide, rfl, Or.inl rfl, rfl⟩
